import Mathlib

/-!
# Verification of the scholarstream ingestion pipeline

Shallow embedding of the pipeline core of `scholarstream-ai`:

* `backend/app/services/flink_processor.py` — content-derived identities
  (`generate_opportunity_id`) and the stateful deduplication window
  (`CortexFlinkProcessor`);
* `backend/app/services/ai_enrichment_service.py` — the batch extraction
  entry point, its validation gate and its retry/backoff loop;
* `backend/app/services/enrichment_worker.py` — the consumer loop;
* `backend/app/services/crawler_service.py` — the dispatch run and the
  published capture payload.

Python dictionaries with a known field set become structures of `Option`
fields (`none` models an absent key or a JSON `null`); Unix timestamps
become `Nat`; `hashlib.sha256(...).hexdigest()` is implemented bit-for-bit
over `Nat` words reduced mod `2^32`.
-/

/-! ## Python string helpers -/

/-- `o.getD ""` — Python `dict.get(k, '')` / `dict.get(k)` read as a string. -/
def pyGetStr (o : Option String) : String := o.getD ""

/-- Python truthiness of an optional string: `None` and `""` are falsy. -/
def pyTruthy (o : Option String) : Bool :=
  match o with
  | none => false
  | some s => !(s == "")

/-- Python `a or b` on strings: `b` when `a` is falsy. -/
def pyOrStr (a b : String) : String := if a == "" then b else a

/-- Python `.lower().strip()` as applied to titles and organizations in
`generate_opportunity_id`: lowercase every character, then strip leading
and trailing whitespace.  Implemented directly on the character list (the
ASCII scope of this repository's data) so the kernel can evaluate it. -/
def normalizeStr (s : String) : String :=
  String.mk
    ((((s.data.map Char.toLower).dropWhile Char.isWhitespace).reverse.dropWhile
        Char.isWhitespace).reverse)

/-- Python `.lower()` alone, likewise over the character list. -/
def strLower (s : String) : String := String.mk (s.data.map Char.toLower)

/-- `needle` occurs at the head of `hay` (character lists). -/
def leadsWith : List Char → List Char → Bool
  | [], _ => true
  | _ :: _, [] => false
  | a :: as, b :: bs => a == b && leadsWith as bs

/-- `needle` occurs somewhere in `hay` (character lists). -/
def hasSubstr (needle : List Char) : List Char → Bool
  | [] => leadsWith needle []
  | c :: t => leadsWith needle (c :: t) || hasSubstr needle t

/-- Python `needle in hay` on strings. -/
def strContains (hay needle : String) : Bool := hasSubstr needle.data hay.data

/-- Python `s[:n]`: the first `n` code points of `s`. -/
def pySlice (s : String) (n : Nat) : String := String.mk (s.data.take n)

/-! ## SHA-256 over `Nat`

A direct FIPS 180-4 implementation: bytes and 32-bit words are `Nat`
reduced mod `2^32` where overflow matters.  Needed because
`generate_opportunity_id` returns `hashlib.sha256(key).hexdigest()[:24]`. -/

/-- UTF-8 encoding of one character, as byte values. -/
def charUtf8 (c : Char) : List Nat :=
  let n := c.toNat
  if n < 128 then [n]
  else if n < 2048 then
    [192 ||| (n >>> 6), 128 ||| (n &&& 63)]
  else if n < 65536 then
    [224 ||| (n >>> 12), 128 ||| ((n >>> 6) &&& 63), 128 ||| (n &&& 63)]
  else
    [240 ||| (n >>> 18), 128 ||| ((n >>> 12) &&& 63),
     128 ||| ((n >>> 6) &&& 63), 128 ||| (n &&& 63)]

/-- Python `str.encode()`: UTF-8 bytes of a string. -/
def utf8Bytes (s : String) : List Nat :=
  s.data.foldr (fun c acc => charUtf8 c ++ acc) []

/-- 32-bit right rotation (input assumed `< 2^32`). -/
def rotr32 (n x : Nat) : Nat :=
  ((x >>> n) ||| (x <<< (32 - n))) &&& 4294967295

/-- Sum reduced mod `2^32`. -/
def addw (a b : Nat) : Nat := (a + b) % 4294967296

def shaCh (x y z : Nat) : Nat := (x &&& y) ^^^ ((x ^^^ 4294967295) &&& z)

def shaMaj (x y z : Nat) : Nat := (x &&& y) ^^^ (x &&& z) ^^^ (y &&& z)

def bsig0 (x : Nat) : Nat := rotr32 2 x ^^^ rotr32 13 x ^^^ rotr32 22 x

def bsig1 (x : Nat) : Nat := rotr32 6 x ^^^ rotr32 11 x ^^^ rotr32 25 x

def ssig0 (x : Nat) : Nat := rotr32 7 x ^^^ rotr32 18 x ^^^ (x >>> 3)

def ssig1 (x : Nat) : Nat := rotr32 17 x ^^^ rotr32 19 x ^^^ (x >>> 10)

/-- Big-endian 8-byte encoding of a bit length. -/
def be64 (n : Nat) : List Nat :=
  [(n >>> 56) &&& 255, (n >>> 48) &&& 255, (n >>> 40) &&& 255,
   (n >>> 32) &&& 255, (n >>> 24) &&& 255, (n >>> 16) &&& 255,
   (n >>> 8) &&& 255, n &&& 255]

/-- FIPS 180-4 §5.1.1 padding: append `0x80`, zero bytes to 56 mod 64,
then the 64-bit big-endian bit length. -/
def padBytes (msg : List Nat) : List Nat :=
  let l := msg.length
  let zeros := (119 - (l % 64)) % 64
  msg ++ [128] ++ List.replicate zeros 0 ++ be64 (8 * l)

/-- Group bytes into big-endian 32-bit words. -/
def bytesToWords : List Nat → List Nat
  | a :: b :: c :: d :: rest =>
      ((a <<< 24) ||| (b <<< 16) ||| (c <<< 8) ||| d) :: bytesToWords rest
  | _ => []

/-- Group a word list into 16-word blocks (structural recursion on a fuel
bound so the kernel can evaluate it; `fuel = ws.length` always suffices). -/
def words16Fuel : Nat → List Nat → List (List Nat)
  | 0, _ => []
  | _, [] => []
  | f + 1, ws => ws.take 16 :: words16Fuel f (ws.drop 16)

/-- Group a word list into 16-word blocks. -/
def words16 (ws : List Nat) : List (List Nat) := words16Fuel ws.length ws

/-- The 64 round constants of SHA-256 (FIPS 180-4 §4.2.2), in decimal. -/
def shaK : List Nat :=
  [1116352408, 1899447441, 3049323471, 3921009573, 961987163,
   1508970993, 2453635748, 2870763221, 3624381080, 310598401,
   607225278, 1426881987, 1925078388, 2162078206, 2614888103,
   3248222580, 3835390401, 4022224774, 264347078, 604807628,
   770255983, 1249150122, 1555081692, 1996064986, 2554220882,
   2821834349, 2952996808, 3210313671, 3336571891, 3584528711,
   113926993, 338241895, 666307205, 773529912, 1294757372,
   1396182291, 1695183700, 1986661051, 2177026350, 2456956037,
   2730485921, 2820302411, 3259730800, 3345764771, 3516065817,
   3600352804, 4094571909, 275423344, 430227734, 506948616,
   659060556, 883997877, 958139571, 1322822218, 1537002063,
   1747873779, 1955562222, 2024104815, 2227730452, 2361852424,
   2428436474, 2756734187, 3204031479, 3329325298]

/-- Initial hash state (FIPS 180-4 §5.3.3), in decimal. -/
def shaIV : List Nat :=
  [1779033703, 3144134277, 1013904242, 2773480762, 1359893119,
   2600822924, 528734635, 1541459225]

/-- Index into the message schedule (0 beyond the end). -/
def wAt (w : List Nat) (i : Nat) : Nat := w.getD i 0

/-- Append the next scheduled word `W_t` for `t = w.length`. -/
def stepW (w : List Nat) : List Nat :=
  let i := w.length
  w ++ [(ssig1 (wAt w (i - 2)) + wAt w (i - 7) +
         ssig0 (wAt w (i - 15)) + wAt w (i - 16)) % 4294967296]

/-- Iterate `stepW`. -/
def extendW : Nat → List Nat → List Nat
  | 0, w => w
  | k + 1, w => extendW k (stepW w)

/-- One SHA-256 round on the working registers `[a,b,c,d,e,f,g,h]`. -/
def shaRound (st : List Nat) (kw : Nat × Nat) : List Nat :=
  match st with
  | [a, b, c, d, e, f, g, h] =>
      let t1 := (h + bsig1 e + shaCh e f g + kw.1 + kw.2) % 4294967296
      let t2 := (bsig0 a + shaMaj a b c) % 4294967296
      [addw t1 t2, a, b, c, addw d t1, e, f, g]
  | other => other

/-- Compress one 16-word block into the running state. -/
def shaCompress (st : List Nat) (block : List Nat) : List Nat :=
  let w := extendW 48 block
  let fin := (shaK.zip w).foldl shaRound st
  (st.zip fin).map (fun p => addw p.1 p.2)

/-- SHA-256 of a byte list as eight 32-bit words. -/
def sha256Words (msg : List Nat) : List Nat :=
  (words16 (bytesToWords (padBytes msg))).foldl shaCompress shaIV

/-- Lowercase hex digit. -/
def hexDigit (n : Nat) : Char :=
  if n < 10 then Char.ofNat (48 + n) else Char.ofNat (87 + n)

/-- Eight hex digits of one 32-bit word. -/
def wordHex (w : Nat) : List Char :=
  [hexDigit ((w >>> 28) &&& 15), hexDigit ((w >>> 24) &&& 15),
   hexDigit ((w >>> 20) &&& 15), hexDigit ((w >>> 16) &&& 15),
   hexDigit ((w >>> 12) &&& 15), hexDigit ((w >>> 8) &&& 15),
   hexDigit ((w >>> 4) &&& 15), hexDigit (w &&& 15)]

/-- Python `hashlib.sha256(s.encode()).hexdigest()`. -/
def sha256hex (s : String) : String :=
  String.mk ((sha256Words (utf8Bytes s)).foldr (fun w acc => wordHex w ++ acc) [])

/-! ## `flink_processor.py` — content ids and the deduplication window -/

/-- A raw opportunity event, as the subset of dictionary keys that
`CortexFlinkProcessor` reads or writes.  `none` models an absent key. -/
structure Event where
  url : Option String := none
  source_url : Option String := none
  name : Option String := none
  title : Option String := none
  organization : Option String := none
  id : Option String := none
  cortex_processed_at : Option Nat := none
deriving DecidableEq, Repr

/-- `event.get('url') or event.get('source_url') or ''` — the effective URL. -/
def effectiveUrl (e : Event) : String :=
  pyOrStr (pyGetStr e.url) (pyGetStr e.source_url)

/-- `(e.get('name') or e.get('title') or '').lower().strip()`. -/
def normTitle (e : Event) : String :=
  normalizeStr (pyOrStr (pyGetStr e.name) (pyGetStr e.title))

/-- `(e.get('organization') or '').lower().strip()`. -/
def normOrg (e : Event) : String := normalizeStr (pyGetStr e.organization)

/-- `generate_opportunity_id` (flink_processor.py lines 13-29): sha256 of the
raw effective URL when it is non-empty, else sha256 of
`f"{title}|{org}"` with title and organization lowercased and stripped;
in both cases the first 24 hex digits. -/
def generate_opportunity_id (e : Event) : String :=
  let url := effectiveUrl e
  if url ≠ "" then
    pySlice (sha256hex url) 24
  else
    pySlice (sha256hex (normTitle e ++ "|" ++ normOrg e)) 24

/-- Association-list read with default: Python `dict.get(k, d)`. -/
def lookupD (m : List (String × Nat)) (k : String) (d : Nat) : Nat :=
  match m with
  | [] => d
  | (k', v) :: rest => if k' == k then v else lookupD rest k d

/-- Association-list write: Python `dict[k] = v` (replace the binding in
place, or append a new one). -/
def setKey (m : List (String × Nat)) (k : String) (v : Nat) : List (String × Nat) :=
  match m with
  | [] => [(k, v)]
  | (k', v') :: rest => if k' == k then (k, v) :: rest else (k', v') :: setKey rest k v

/-- The mutable state of `CortexFlinkProcessor`: the seen-map
(`seen_opportunities`), the window queue (`processing_queue`, head first),
both counters, and the window size `W` fixed at construction. -/
structure DedupState where
  window : Nat
  seen : List (String × Nat)
  queue : List (Nat × Event)
  total_processed : Nat
  duplicates_dropped : Nat
deriving DecidableEq, Repr

/-- `CortexFlinkProcessor.__init__`: `W = 3600`, empty state. -/
def initState : DedupState :=
  { window := 3600, seen := [], queue := [], total_processed := 0,
    duplicates_dropped := 0 }

/-- First half of `_cleanup_window`: pop the queue while its head is strictly
older than `W`, stopping at the first head that is not. -/
def cleanupQueue (w now : Nat) : List (Nat × Event) → List (Nat × Event)
  | [] => []
  | (ts, e) :: rest =>
      if now - ts > w then cleanupQueue w now rest else (ts, e) :: rest

/-- `_cleanup_window` (lines 97-116): evict the stale queue prefix and sweep
every seen-map entry strictly older than `2W`. -/
def cleanup_window (s : DedupState) (now : Nat) : DedupState :=
  { s with
    queue := cleanupQueue s.window now s.queue,
    seen := s.seen.filter (fun q => decide (¬ (now - q.2 > s.window * 2))) }

/-- `process_event` (lines 50-95).  Returns the emitted event (`none` on a
duplicate drop) and the successor state.  Python float `time.time()`
timestamps are modelled as `Nat` seconds; since `W > 0`, the truncated `Nat`
subtraction agrees with the Python comparison `now - last_seen < W` on every
reachable clock (a negative Python difference and a truncated-to-zero `Nat`
difference are both `< W`). -/
def process_event (s : DedupState) (now : Nat) (e : Event) : Option Event × DedupState :=
  let content_id := generate_opportunity_id e
  let last_seen := lookupD s.seen content_id 0
  if now - last_seen < s.window then
    (none, { s with duplicates_dropped := s.duplicates_dropped + 1 })
  else
    let e2 := { e with id := some content_id, cortex_processed_at := some now }
    let s1 := cleanup_window { s with seen := setKey s.seen content_id now } now
    (some e2,
     { s1 with queue := s1.queue ++ [(now, e2)],
               total_processed := s1.total_processed + 1 })

/-- `is_duplicate` (lines 128-133): the same window lookup as
`process_event`, reading the state without producing a new one. -/
def is_duplicate (s : DedupState) (now : Nat) (e : Event) : Bool :=
  let content_id := generate_opportunity_id e
  let last_seen := lookupD s.seen content_id 0
  decide (now - last_seen < s.window)

/-- Concrete URL-bearing events for concrete runs. -/
def evA : Event := { url := some "http://a.example" }

def evB : Event := { url := some "http://b.example" }

/-! ## `ai_enrichment_service.py` — batch extraction, validation, backoff

`extract_opportunities_from_html_batch` (lines 68-191) is embedded
parametrically in its two external collaborators: the HTML cleaner
`clean_html` (BeautifulSoup-based, lines 33-66) appears as an arbitrary
function `clean : String → String`, and the Extraction Oracle call plus
response parsing appears as `oracle : Nat → OracleOutcome` giving the
outcome of each attempt.  `OracleOutcome.ok` carries the parsed JSON list
(after markdown-fence stripping and the dict-to-singleton-list promotion);
a response that fails to parse raises and, lacking the rate-limit markers,
behaves exactly like `hardError`. -/

/-- One extracted opportunity candidate, as the dictionary keys the
validation gate reads or writes.  `none` is an absent key or JSON `null`. -/
structure Candidate where
  title : Option String := none
  organization : Option String := none
  amount_value : Option Int := none
  amount_display : Option String := none
  deadline : Option String := none
  description : Option String := none
  url : Option String := none
  opp_type : Option String := none
  eligibility : Option String := none
deriving DecidableEq, Repr

/-- The validation loop of `extract_opportunities_from_html_batch`
(lines 134-163): skip a candidate without truthy `title` or `url`; coerce a
`None` `amount_value` to `0` and a `None` `eligibility` to the neutral
default; turn an `"Unknown"` or falsy `deadline` into `None`; skip a
candidate whose lowercased description contains `"lorem"`. -/
def validateItems : List Candidate → List Candidate
  | [] => []
  | item :: rest =>
    if !(pyTruthy item.title) || !(pyTruthy item.url) then validateItems rest
    else
      let item3 : Candidate :=
        { item with
          amount_value := some (item.amount_value.getD 0),
          eligibility := some (item.eligibility.getD "Open to all users."),
          deadline :=
            if item.deadline == some "Unknown" || !(pyTruthy item.deadline)
            then none else item.deadline }
      if strContains (strLower (pyGetStr item3.description)) "lorem" then
        validateItems rest
      else item3 :: validateItems rest

/-- The spec's per-candidate validation gate, written from the spec's words
for comparison with the source-translated `validateItems`. -/
def specGate (item : Candidate) : Option Candidate :=
  if pyTruthy item.title && pyTruthy item.url &&
     !(strContains (strLower (pyGetStr item.description)) "lorem") then
    some { item with
      amount_value := some (item.amount_value.getD 0),
      eligibility := some (item.eligibility.getD "Open to all users."),
      deadline :=
        if item.deadline == some "Unknown" || !(pyTruthy item.deadline)
        then none else item.deadline }
  else none

/-- Outcome of one Extraction Oracle attempt, after response parsing. -/
inductive OracleOutcome where
  | rateLimit
  | hardError
  | ok (items : List Candidate)

/-- `max_retries = 3` (line 114). -/
def gem_max_retries : Nat := 3

/-- `base_delay = 10` (line 115). -/
def gem_base_delay : Nat := 10

/-- `wait_time = base_delay * (2 ** attempt) + 30` (line 173). -/
def waitTime (attempt : Nat) : Nat := gem_base_delay * 2 ^ attempt + 30

/-- Observable behaviour of one run of the retry loop: how many oracle
calls were made, the backoff sleeps issued, and the returned list. -/
structure BatchRun where
  calls : Nat
  waits : List Nat
  result : List Candidate
deriving DecidableEq, Repr

/-- The retry loop `for attempt in range(max_retries)` (lines 117-191):
a rate-limited attempt sleeps `waitTime attempt` and retries, any other
oracle error returns `[]` at once, a parsed response is validated and
returned, and an exhausted loop falls through to `return []`. -/
def runBatch (oracle : Nat → OracleOutcome) : Nat → Nat → BatchRun
  | _, 0 => ⟨0, [], []⟩
  | attempt, fuel + 1 =>
    match oracle attempt with
    | .ok items => ⟨1, [], validateItems items⟩
    | .hardError => ⟨1, [], []⟩
    | .rateLimit =>
        let rest := runBatch oracle (attempt + 1) fuel
        ⟨rest.calls + 1, waitTime attempt :: rest.waits, rest.result⟩

/-- One raw-capture page handed to the batch extractor: the `url` and
`html` keys of the consumed message. -/
structure PageItem where
  url : Option String := none
  html : Option String := none
deriving DecidableEq, Repr

/-- The cleaning filter of `extract_opportunities_from_html_batch`
(lines 77-84): clean every page and keep `{url, content}` only when the
cleaned content is longer than 500 characters. -/
def cleanedOf (clean : String → String) (items : List PageItem) :
    List (Option String × String) :=
  items.filterMap (fun it =>
    let c := clean (pyGetStr it.html)
    if 500 < c.length then some (it.url, c) else none)

/-- `extract_opportunities_from_html_batch` (lines 68-191): return `[]` on
an empty batch, clean and length-filter the pages, return `[]` without an
oracle call when nothing survives, else enter the retry loop. -/
def extractBatch (clean : String → String) (oracle : Nat → OracleOutcome)
    (items : List PageItem) : BatchRun :=
  if items.isEmpty then ⟨0, [], []⟩
  else if (cleanedOf clean items).isEmpty then ⟨0, [], []⟩
  else runBatch oracle 0 gem_max_retries

/-! ## `enrichment_worker.py` — the consumer loop

`EnrichmentWorker.start` (lines 49-126) is embedded as a function of the
sequence of poll results the broker hands the worker.  Two external parts
are not under the embedded sources and are modelled from the spec:

* the transport (`kafka_config.py`): `publish(topic, key, value)` returns a
  boolean and a failure is logged, never raised, so publishing is modelled
  as emitting the message;
* real time: the 2.0 s collection budget polled at 0.5 s is abstracted as
  at most `pollBudget = 4` poll calls per loop iteration, and the
  `enriched_at` wall-clock stamp and configured `ai_model` tag of the
  published message are environment constants left out of the record.

The explicit stop signal (`self.running`) is reaching the end of the poll
trace. -/

/-- One result of `consumer.poll(0.5)`: no message, a transport error
object, a message whose JSON decode raises, or a decoded payload. -/
inductive PollResult where
  | isNone
  | pollError (partitionEof : Bool)
  | malformed
  | payload (p : PageItem)

/-- Poll-call budget standing in for the 2.0 s / 0.5 s collection window. -/
def pollBudget : Nat := 4

/-- The batch-collection inner loop (lines 52-73): poll while fewer than 2
messages are collected and budget remains; `None` polls, transport errors
and undecodable messages are logged and skipped; a decoded payload is kept
only when both `html` and `url` are truthy.  Returns the batch and the
unconsumed trace. -/
def collectBatch : Nat → List PageItem → List PollResult →
    List PageItem × List PollResult
  | _, acc, [] => (acc, [])
  | 0, acc, trace => (acc, trace)
  | b + 1, acc, .isNone :: rest =>
    if acc.length < 2 then collectBatch b acc rest
    else (acc, .isNone :: rest)
  | b + 1, acc, .pollError e :: rest =>
    if acc.length < 2 then collectBatch b acc rest
    else (acc, .pollError e :: rest)
  | b + 1, acc, .malformed :: rest =>
    if acc.length < 2 then collectBatch b acc rest
    else (acc, .malformed :: rest)
  | b + 1, acc, .payload p :: rest =>
    if acc.length < 2 then
      collectBatch b
        (acc ++ if pyTruthy p.html && pyTruthy p.url then [p] else []) rest
    else (acc, .payload p :: rest)

/-- One message published to the enriched-opportunity topic
(lines 103-116). -/
structure Enriched where
  source : String
  enriched_data : Candidate
  origin_url : Option String
deriving DecidableEq, Repr

/-- The enriched message built for one extracted opportunity. -/
def mkEnriched (opp : Candidate) : Enriched :=
  { source := "multi-batch", enriched_data := opp, origin_url := opp.url }

/-- The worker loop (lines 50-118), fuelled by the trace length: collect a
batch; an empty batch yields and continues; otherwise extract (the
extraction call catches every oracle error internally and returns a list)
and publish one enriched message per opportunity. -/
def workerRunFuel (ex : List PageItem → List Candidate) :
    Nat → List PollResult → List Enriched
  | 0, _ => []
  | _, [] => []
  | f + 1, r :: rest =>
    let br := collectBatch pollBudget [] (r :: rest)
    (if br.1.isEmpty then [] else (ex br.1).map mkEnriched) ++
      workerRunFuel ex f br.2

/-- `EnrichmentWorker.start`, run over a finite poll trace. -/
def workerRun (ex : List PageItem → List Candidate)
    (trace : List PollResult) : List Enriched :=
  workerRunFuel ex trace.length trace

/-- The successive non-empty batches the loop submits, fuelled likewise. -/
def batchesOfFuel : Nat → List PollResult → List (List PageItem)
  | 0, _ => []
  | _, [] => []
  | f + 1, r :: rest =>
    let br := collectBatch pollBudget [] (r :: rest)
    (if br.1.isEmpty then [] else [br.1]) ++ batchesOfFuel f br.2

/-- The successive non-empty batches of a poll trace. -/
def batchesOf (trace : List PollResult) : List (List PageItem) :=
  batchesOfFuel trace.length trace

/-- The decodable payloads of a trace with truthy `html` and `url` — the
messages the loop must not lose to interleaved errors. -/
def validPayloads (trace : List PollResult) : List PageItem :=
  trace.filterMap (fun r =>
    match r with
    | .payload p => if pyTruthy p.html && pyTruthy p.url then some p else none
    | _ => none)

/-! ## `crawler_service.py` — the dispatch run

`crawl_and_stream` (lines 121-168) is embedded parametrically in the
Capture Agent: `fetch : String → FetchOutcome` gives, per URL, either the
fetched page content and title or the exception raised anywhere in the
per-URL `try` block (navigation timeout, crash, block).  Publishing a
payload models handing it to the transport; the run returns the list of
published `CaptureRecord`s in order.  The `try/finally` session teardown
and per-URL page close have no failure modes in the embedding, so reaching
the end of the list is reaching DONE. -/

/-- Outcome of the Capture Agent on one URL. -/
inductive FetchOutcome where
  | ok (html title : String)
  | failed (err : String)
deriving DecidableEq

/-- Drop the authority part of a URL after `//`, stopping at a delimiter —
model of `urllib.parse.urlparse(url).netloc` (crawler_service.py line 201)
for the common URL shapes. -/
def takeNetloc : List Char → List Char
  | [] => []
  | c :: rest =>
      if c == '/' || c == '?' || c == '#' then [] else c :: takeNetloc rest

/-- Scan for the first `://` and return what follows. -/
def afterSchemeMark : List Char → Option (List Char)
  | ':' :: '/' :: '/' :: rest => some rest
  | _ :: rest => afterSchemeMark rest
  | [] => none

/-- `_extract_domain` (lines 199-201). -/
def extractDomain (url : String) : String :=
  match url.data with
  | '/' :: '/' :: rest => String.mk (takeNetloc rest)
  | l =>
    match afterSchemeMark l with
    | some rest => String.mk (takeNetloc rest)
    | none => ""

/-- The payload `_process_success` publishes (lines 176-184): the html is
sliced to the fixed 200000-character cap, never rejected. -/
structure CapturePayload where
  url : String
  title : String
  html : String
  crawled_at : Nat
  source : String
  intent : String
  agent_type : String
deriving DecidableEq, Repr

/-- The `payload` dictionary of `_process_success`. -/
def mkCapturePayload (url html title intent : String) (now : Nat) :
    CapturePayload :=
  { url := url, title := title, html := pySlice html 200000,
    crawled_at := now, source := extractDomain url, intent := intent,
    agent_type := "HunterDrone-V1" }

/-- `_process_success` (lines 170-197): build the payload and publish it
when the transport is initialized (a publish failure is logged, not
raised); with the transport offline the payload is dropped. -/
def processSuccess (kafkaInit : Bool) (url html title intent : String)
    (now : Nat) : Option CapturePayload :=
  if kafkaInit then some (mkCapturePayload url html title intent now)
  else none

/-- `crawl_and_stream` (lines 121-168): visit the URLs in order; a failed
capture is logged and skipped, a successful one is handed to
`_process_success`; the run always reaches its end. -/
def crawlAndStream (fetch : String → FetchOutcome) (kafkaInit : Bool)
    (now : Nat) (intent : String) (urls : List String) :
    List CapturePayload :=
  urls.filterMap (fun u =>
    match fetch u with
    | .ok h t => processSuccess kafkaInit u h t intent now
    | .failed _ => none)

/-! ## Theorems -/

theorem lookupD_setKey (m : List (String × Nat)) (k : String) (v d : Nat) :
    lookupD (setKey m k v) k d = v := by
  induction m with
  | nil => simp [setKey, lookupD]
  | cons hd tl ih =>
    obtain ⟨k', v'⟩ := hd
    by_cases h : k' = k
    · subst h; simp [setKey, lookupD]
    · simp [setKey, lookupD, h, ih]

theorem lookupD_filter_setKey (p : String × Nat → Bool) (m : List (String × Nat))
    (k : String) (v d : Nat) (hp : p (k, v) = true) :
    lookupD ((setKey m k v).filter p) k d = v := by
  induction m with
  | nil => simp [setKey, List.filter, hp, lookupD]
  | cons hd tl ih =>
    obtain ⟨k', v'⟩ := hd
    by_cases h : k' = k
    · subst h; simp [setKey, List.filter, hp, lookupD]
    · rw [setKey]
      simp only [beq_iff_eq, h, if_false, List.filter_cons]
      cases hpk : p (k', v') with
      | true => simpa [lookupD, h] using ih
      | false => exact ih

theorem cleanupQueue_not_old (w now : Nat) (q : List (Nat × Event))
    (hq : q.Pairwise (fun a b => a.1 ≤ b.1)) :
    ∀ p ∈ cleanupQueue w now q, ¬ (now - p.1 > w) := by
  induction q with
  | nil => simp [cleanupQueue]
  | cons hd tl ih =>
    obtain ⟨ts, ev⟩ := hd
    obtain ⟨hhd, htl⟩ := List.pairwise_cons.mp hq
    intro p hp
    by_cases h : now - ts > w
    · rw [cleanupQueue, if_pos h] at hp
      exact ih htl p hp
    · rw [cleanupQueue, if_neg h] at hp
      rcases List.mem_cons.mp hp with rfl | hmem
      · exact h
      · have := hhd p hmem
        simp only [not_lt] at h ⊢
        omega


/-- Unfolding of `process_event` on the duplicate branch. -/
theorem process_event_pos (s : DedupState) (now : Nat) (e : Event)
    (h : now - lookupD s.seen (generate_opportunity_id e) 0 < s.window) :
    process_event s now e =
      (none, { s with duplicates_dropped := s.duplicates_dropped + 1 }) := by
  simp [process_event, h]

/-- Unfolding of `process_event` on the admit branch. -/
theorem process_event_neg (s : DedupState) (now : Nat) (e : Event)
    (h : ¬ (now - lookupD s.seen (generate_opportunity_id e) 0 < s.window)) :
    process_event s now e =
      (some { e with id := some (generate_opportunity_id e),
                     cortex_processed_at := some now },
       { window := s.window,
         seen := (setKey s.seen (generate_opportunity_id e) now).filter
           (fun q => decide (¬ (now - q.2 > s.window * 2))),
         queue := cleanupQueue s.window now s.queue ++
           [(now, { e with id := some (generate_opportunity_id e),
                           cortex_processed_at := some now })],
         total_processed := s.total_processed + 1,
         duplicates_dropped := s.duplicates_dropped }) := by
  simp [process_event, h, cleanup_window]

/-- C1: `process_event` drops an event (returns `none`, bumps only the
duplicate counter, leaves seen-map, queue and processed counter untouched)
exactly when `now - last_seen < W`; otherwise it records `now` as last
seen, attaches the content id, appends to the (evicted) window queue,
bumps the processed counter and returns the event.  Immediately
reprocessing the same content then drops with the duplicate counter up by
exactly 1, and reprocessing identical content at `now + W + 1` succeeds. -/
theorem dedup_process_spec (s : DedupState) (now : Nat) (e : Event)
    (hW : 0 < s.window) :
    ((process_event s now e).1 = none ↔
      now - lookupD s.seen (generate_opportunity_id e) 0 < s.window) ∧
    (now - lookupD s.seen (generate_opportunity_id e) 0 < s.window →
      (process_event s now e).2 =
        { s with duplicates_dropped := s.duplicates_dropped + 1 }) ∧
    (¬ (now - lookupD s.seen (generate_opportunity_id e) 0 < s.window) →
      (process_event s now e).1 =
        some { e with id := some (generate_opportunity_id e),
                      cortex_processed_at := some now } ∧
      lookupD (process_event s now e).2.seen (generate_opportunity_id e) 0 = now ∧
      (process_event s now e).2.queue =
        cleanupQueue s.window now s.queue ++
          [(now, { e with id := some (generate_opportunity_id e),
                          cortex_processed_at := some now })] ∧
      (process_event s now e).2.total_processed = s.total_processed + 1 ∧
      (process_event s now e).2.duplicates_dropped = s.duplicates_dropped ∧
      (process_event (process_event s now e).2 now e).1 = none ∧
      (process_event (process_event s now e).2 now e).2.duplicates_dropped =
        s.duplicates_dropped + 1 ∧
      (process_event (process_event s now e).2 (now + s.window + 1) e).1.isSome
        = true) := by
  by_cases h : now - lookupD s.seen (generate_opportunity_id e) 0 < s.window
  · rw [process_event_pos s now e h]
    exact ⟨by simp [h], fun _ => rfl, fun hc => absurd h hc⟩
  · rw [process_event_neg s now e h]
    have hlook : lookupD
        ((setKey s.seen (generate_opportunity_id e) now).filter
          (fun q => decide (¬ (now - q.2 > s.window * 2))))
        (generate_opportunity_id e) 0 = now :=
      lookupD_filter_setKey _ s.seen _ now 0 (by simp)
    refine ⟨by simp [h], fun hc => absurd hc h, fun _ => ?_⟩
    have hdup : now - lookupD
        ((setKey s.seen (generate_opportunity_id e) now).filter
          (fun q => decide (¬ (now - q.2 > s.window * 2))))
        (generate_opportunity_id e) 0 < s.window := by
      rw [hlook]; omega
    have hre : ¬ ((now + s.window + 1) - lookupD
        ((setKey s.seen (generate_opportunity_id e) now).filter
          (fun q => decide (¬ (now - q.2 > s.window * 2))))
        (generate_opportunity_id e) 0 < s.window) := by
      rw [hlook]; omega
    refine ⟨rfl, hlook, rfl, rfl, rfl, ?_, ?_, ?_⟩
    · rw [process_event_pos _ now e hdup]
    · rw [process_event_pos _ now e hdup]
    · rw [process_event_neg _ _ e hre]
      rfl


/-- C1 witness: the admit branch of `dedup_process_spec` at a concrete
fresh event. -/
theorem dedup_process_spec_witness :
    (0 < initState.window) ∧
    (¬ (3600 - lookupD initState.seen (generate_opportunity_id evA) 0 <
        initState.window)) ∧
    (process_event initState 3600 evA).2.total_processed =
      initState.total_processed + 1 ∧
    (process_event (process_event initState 3600 evA).2 3600 evA).1 = none :=
  ⟨by decide, by decide,
   ((dedup_process_spec initState 3600 evA (by decide)).2.2 (by decide)).2.2.2.1,
   ((dedup_process_spec initState 3600 evA (by decide)).2.2 (by decide)).2.2.2.2.2.1⟩

/-- C2 (amended): eviction runs on every non-duplicate `process_event`
call — after any call that returns an event on a time-ordered queue, the
window queue holds no entry strictly older than `W` and the seen-map no
entry strictly older than `2W`.  The claim's "on every process() call, on
any event, duplicate or not" is refuted separately on the duplicate
branch. -/
theorem eviction_after_accept (s : DedupState) (now : Nat) (e : Event)
    (hsort : s.queue.Pairwise (fun a b => a.1 ≤ b.1))
    (hres : (process_event s now e).1.isSome = true) :
    (∀ p ∈ (process_event s now e).2.queue, ¬ (now - p.1 > s.window)) ∧
    (∀ q ∈ (process_event s now e).2.seen, ¬ (now - q.2 > s.window * 2)) := by
  by_cases h : now - lookupD s.seen (generate_opportunity_id e) 0 < s.window
  · rw [process_event_pos s now e h] at hres
    simp at hres
  · rw [process_event_neg s now e h]
    constructor
    · intro p hp
      rcases List.mem_append.mp hp with hmem | hmem
      · exact cleanupQueue_not_old s.window now s.queue hsort p hmem
      · rcases List.mem_singleton.mp hmem with rfl
        omega
    · intro q hq
      have := List.of_mem_filter hq
      simpa using this

/-- C2 witness: `eviction_after_accept` at a concrete admitted event. -/
theorem eviction_after_accept_witness :
    initState.queue.Pairwise (fun a b => (a.1 : Nat) ≤ b.1) ∧
    (process_event initState 3600 evA).1.isSome = true ∧
    ∀ p ∈ (process_event initState 3600 evA).2.queue,
      ¬ (3600 - p.1 > initState.window) :=
  ⟨List.Pairwise.nil, by decide,
   (eviction_after_accept initState 3600 evA List.Pairwise.nil (by decide)).1⟩

set_option maxRecDepth 100000 in
/-- C2 counterexample: the claim "eviction is run on every process() call,
so after every process() call (duplicate or not) the window queue holds no
entry older than W" is false: `process_event` returns on the duplicate
branch before `_cleanup_window` runs.  Concretely, after admitting `evA`
at `t = 3600` and `evB` at `t = 6600`, the duplicate call `process(evB)`
at `t = 7300` drops and leaves the `t = 3600` entry, aged `3700 > W`,
in the queue. -/
theorem cleanup_not_on_duplicate_path :
    (process_event (process_event (process_event initState 3600 evA).2
        6600 evB).2 7300 evB).1 = none ∧
    ¬ (∀ p ∈ (process_event (process_event (process_event initState 3600 evA).2
        6600 evB).2 7300 evB).2.queue,
        ¬ (7300 - p.1 >
          (process_event (process_event (process_event initState 3600 evA).2
            6600 evB).2 7300 evB).2.window)) := by
  decide

/-- C9: `is_duplicate` performs the same window lookup as `process_event`
while mutating nothing — in this embedding it is a plain function of the
state that produces no successor state, so the frame condition holds by
type, and its result equals whether `process_event` would drop the event
at the same instant. -/
theorem is_duplicate_frame (s : DedupState) (now : Nat) (e : Event) :
    is_duplicate s now e = (process_event s now e).1.isNone := by
  by_cases h : now - lookupD s.seen (generate_opportunity_id e) 0 < s.window
  · rw [process_event_pos s now e h]
    simp [is_duplicate, h]
  · rw [process_event_neg s now e h]
    simp [is_duplicate, h]

/-- C3 counterexample: "compute_id is the hash of the normalized source
URL ... for every two events with equal normalized URL, compute_id returns
equal values" is false: `generate_opportunity_id` hashes the URL raw,
without the `.lower().strip()` normalization it applies to titles and
organizations, so two events whose URLs differ only in case have equal
normalized URLs but different ids. -/
theorem compute_id_not_url_normalized :
    normalizeStr (effectiveUrl { url := some "HTTP://X.COM" }) =
      normalizeStr (effectiveUrl { url := some "http://x.com" }) ∧
    generate_opportunity_id { url := some "HTTP://X.COM" } ≠
      generate_opportunity_id { url := some "http://x.com" } := by
  constructor
  · decide
  · decide

/-- C3 (amended): `generate_opportunity_id` is a pure, deterministic
function of the event's content only — the hash of the raw (unnormalized)
effective source URL when one is present, else the hash of the lowercased,
stripped title plus organization — and never of time: any two events that
agree on the effective URL, and (when it is empty) on the normalized title
and organization, receive equal ids. -/
theorem gen_id_content_determined (e1 e2 : Event)
    (hurl : effectiveUrl e1 = effectiveUrl e2)
    (hfb : effectiveUrl e1 ≠ "" ∨
      (normTitle e1 = normTitle e2 ∧ normOrg e1 = normOrg e2)) :
    generate_opportunity_id e1 = generate_opportunity_id e2 := by
  by_cases h : effectiveUrl e2 = ""
  · rcases hfb with hne | ⟨ht, ho⟩
    · rw [hurl] at hne; exact absurd h hne
    · simp [generate_opportunity_id, hurl, h, ht, ho]
  · simp [generate_opportunity_id, hurl, h]

/-- C3 witness: `gen_id_content_determined` at two concrete events with
the same effective URL carried by different keys. -/
theorem gen_id_content_determined_witness :
    effectiveUrl ({ url := some "http://x.com" } : Event) =
      effectiveUrl ({ source_url := some "http://x.com" } : Event) ∧
    generate_opportunity_id ({ url := some "http://x.com" } : Event) =
      generate_opportunity_id ({ source_url := some "http://x.com" } : Event) :=
  ⟨by decide,
   gen_id_content_determined _ _ (by decide) (Or.inl (by decide))⟩

theorem validateItems_eq_filterMap (l : List Candidate) :
    validateItems l = l.filterMap specGate := by
  induction l with
  | nil => rfl
  | cons item rest ih =>
    by_cases ht : pyTruthy item.title <;>
      by_cases hu : pyTruthy item.url <;>
        by_cases hl : strContains (strLower (pyGetStr item.description)) "lorem" <;>
          simp [validateItems, specGate, ht, hu, hl, ih, List.filterMap_cons]

/-- C4: the validation gate keeps a candidate only if title and url are
truthy, coerces a null amount_value to 0 and a null eligibility to the
neutral default, normalizes an "Unknown" deadline to null, excludes any
candidate whose lowercased description contains "lorem", and drops failing
candidates individually (the gate distributes over batch concatenation and
equals a per-candidate filterMap). -/
theorem validation_gate_spec (items : List Candidate) :
    validateItems items = items.filterMap specGate ∧
    (∀ l1 l2 : List Candidate,
      validateItems (l1 ++ l2) = validateItems l1 ++ validateItems l2) ∧
    ∀ c ∈ validateItems items,
      pyTruthy c.title = true ∧ pyTruthy c.url = true ∧
      c.amount_value ≠ none ∧ c.eligibility ≠ none ∧
      c.deadline ≠ some "Unknown" ∧
      strContains (strLower (pyGetStr c.description)) "lorem" = false := by
  refine ⟨validateItems_eq_filterMap items, ?_, ?_⟩
  · intro l1 l2
    simp [validateItems_eq_filterMap, List.filterMap_append]
  · intro c hc
    rw [validateItems_eq_filterMap] at hc
    obtain ⟨a, _, hs⟩ := List.mem_filterMap.mp hc
    rw [specGate] at hs
    by_cases hcond : (pyTruthy a.title && pyTruthy a.url &&
        !(strContains (strLower (pyGetStr a.description)) "lorem")) = true
    · rw [if_pos hcond] at hs
      simp only [Bool.and_eq_true, Bool.not_eq_true'] at hcond
      obtain ⟨⟨ht, hu⟩, hl⟩ := hcond
      obtain rfl := Option.some.inj hs
      refine ⟨ht, hu, by simp, by simp, ?_, by simpa using hl⟩
      by_cases hd : (a.deadline == some "Unknown" || !(pyTruthy a.deadline)) = true
      · simp [hd]
      · simp only [if_neg hd]
        simp only [Bool.or_eq_true, not_or, Bool.not_eq_true] at hd
        intro hcontra
        rw [hcontra] at hd
        simp at hd
    · rw [if_neg hcond] at hs
      exact absurd hs (by simp)

/-- C4 witness: the gate at a concrete two-field candidate. -/
theorem validation_gate_spec_witness :
    (({ title := some "T", url := some "u", amount_value := some 0,
        eligibility := some "Open to all users." } : Candidate) ∈
      validateItems [({ title := some "T", url := some "u" } : Candidate)]) ∧
    ({ title := some "T", url := some "u", amount_value := some 0,
        eligibility := some "Open to all users." } : Candidate).amount_value ≠
      none :=
  ⟨by decide,
   ((validation_gate_spec [{ title := some "T", url := some "u" }]).2.2 _
     (by decide)).2.2.1⟩

theorem waitTime_lt (a : Nat) : waitTime a < waitTime (a + 1) := by
  have h : 0 < 2 ^ a := Nat.pos_pow_of_pos a (by omega)
  have h2 : 2 ^ (a + 1) = 2 * 2 ^ a := by rw [Nat.pow_succ]; ring
  simp only [waitTime, gem_base_delay, h2]
  omega

theorem runBatch_calls_le (oracle : Nat → OracleOutcome) :
    ∀ (fuel a : Nat), (runBatch oracle a fuel).calls ≤ fuel := by
  intro fuel
  induction fuel with
  | zero => intro a; simp [runBatch]
  | succ f ih =>
    intro a
    cases ho : oracle a with
    | ok items => simp [runBatch, ho]
    | hardError => simp [runBatch, ho]
    | rateLimit =>
      have := ih (a + 1)
      simp only [runBatch, ho]
      omega

theorem runBatch_waits_shape (oracle : Nat → OracleOutcome) :
    ∀ (fuel a : Nat), ∃ k, k ≤ fuel ∧
      (runBatch oracle a fuel).waits = (List.range' a k).map waitTime := by
  intro fuel
  induction fuel with
  | zero => intro a; exact ⟨0, by omega, by simp [runBatch]⟩
  | succ f ih =>
    intro a
    cases ho : oracle a with
    | ok items => exact ⟨0, by omega, by simp [runBatch, ho]⟩
    | hardError => exact ⟨0, by omega, by simp [runBatch, ho]⟩
    | rateLimit =>
      obtain ⟨k, hk, hw⟩ := ih (a + 1)
      exact ⟨k + 1, by omega, by simp [runBatch, ho, hw, List.range'_succ]⟩

theorem chainWaits (k : Nat) :
    ∀ a, List.Chain' (· < ·) ((List.range' a k).map waitTime) := by
  induction k with
  | zero => intro a; simp
  | succ k ih =>
    intro a
    rw [List.range'_succ, List.map_cons]
    refine List.chain'_cons'.mpr ⟨?_, ih (a + 1)⟩
    intro y hy
    cases k with
    | zero => simp at hy
    | succ k' =>
      rw [List.range'_succ, List.map_cons] at hy
      simp only [List.head?_cons, Option.mem_def, Option.some.injEq] at hy
      rw [← hy]
      exact waitTime_lt a

/-- C5: under consecutive rate-limit signals the batch extraction call
sleeps strictly increasing times across attempts (exponential backoff from
the fixed floor `base_delay = 10`, concretely 40 s, 50 s, 70 s), makes at
most 3 attempts, and after the cap returns an empty result; on a
non-rate-limit oracle error it returns an empty result after that single
call, with no retry and no sleep. -/
theorem batch_backoff_spec (clean : String → String)
    (oracle : Nat → OracleOutcome) (items : List PageItem)
    (h1 : items.isEmpty = false)
    (h2 : (cleanedOf clean items).isEmpty = false) :
    ((∀ a, oracle a = .rateLimit) →
      extractBatch clean oracle items =
        ⟨3, [waitTime 0, waitTime 1, waitTime 2], []⟩ ∧
      waitTime 0 < waitTime 1 ∧ waitTime 1 < waitTime 2) ∧
    List.Chain' (· < ·) (extractBatch clean oracle items).waits ∧
    (extractBatch clean oracle items).calls ≤ gem_max_retries ∧
    (oracle 0 = .hardError →
      extractBatch clean oracle items = ⟨1, [], []⟩) := by
  have hun : extractBatch clean oracle items = runBatch oracle 0 gem_max_retries := by
    rw [extractBatch, if_neg (by simp [h1]), if_neg (by simp [h2])]
  rw [hun]
  refine ⟨fun hall => ⟨?_, by decide, by decide⟩, ?_, ?_, fun hh => ?_⟩
  · simp [gem_max_retries, runBatch, hall 0, hall 1, hall 2]
  · obtain ⟨k, _, hw⟩ := runBatch_waits_shape oracle gem_max_retries 0
    rw [hw]
    exact chainWaits k 0
  · exact runBatch_calls_le oracle gem_max_retries 0
  · simp [gem_max_retries, runBatch, hh]

set_option maxRecDepth 40000 in
/-- C5 witness: `batch_backoff_spec` on a one-page batch whose cleaned
content is 501 characters, against an always-rate-limited oracle. -/
theorem batch_backoff_spec_witness :
    ([({ url := some "u",
         html := some (String.mk (List.replicate 501 'a')) } : PageItem)].isEmpty
      = false) ∧
    ((cleanedOf (fun s => s)
        [{ url := some "u",
           html := some (String.mk (List.replicate 501 'a')) }]).isEmpty
      = false) ∧
    extractBatch (fun s => s) (fun _ => OracleOutcome.rateLimit)
        [{ url := some "u", html := some (String.mk (List.replicate 501 'a')) }] =
      ⟨3, [waitTime 0, waitTime 1, waitTime 2], []⟩ :=
  ⟨rfl, by decide,
   ((batch_backoff_spec (fun s => s) (fun _ => OracleOutcome.rateLimit)
      [{ url := some "u", html := some (String.mk (List.replicate 501 'a')) }]
      rfl (by decide)).1 (fun a => rfl)).1⟩

/-- C10: the batch extraction entry point silently excludes every page
whose cleaned HTML is 500 characters or shorter (every page submitted has
cleaned length over 500), and when every page is that short — or the
batch is empty — it returns an empty result with zero oracle calls. -/
theorem short_pages_skipped (clean : String → String)
    (oracle : Nat → OracleOutcome) (items : List PageItem) :
    (∀ p ∈ cleanedOf clean items, 500 < p.2.length) ∧
    ((∀ it ∈ items, (clean (pyGetStr it.html)).length ≤ 500) →
      extractBatch clean oracle items = ⟨0, [], []⟩) := by
  constructor
  · intro p hp
    obtain ⟨it, _, hit⟩ := List.mem_filterMap.mp hp
    by_cases hlen : 500 < (clean (pyGetStr it.html)).length
    · simp only [hlen, if_pos] at hit
      obtain rfl := Option.some.inj hit
      exact hlen
    · simp [hlen] at hit
  · intro hall
    have hclean : cleanedOf clean items = [] := by
      rw [cleanedOf, List.filterMap_eq_nil_iff]
      intro it hit
      simp [Nat.not_lt.mpr (hall it hit)]
    cases hi : items.isEmpty with
    | true => rw [extractBatch, if_pos hi]
    | false =>
      rw [extractBatch, if_neg (by simp [hi]), if_pos (by simp [hclean])]

/-- C10 witness: a single page whose cleaned HTML has 4 characters. -/
theorem short_pages_skipped_witness :
    (∀ it ∈ [({ html := some "tiny" } : PageItem)],
      ((fun s => s) (pyGetStr it.html)).length ≤ 500) ∧
    extractBatch (fun s => s) (fun _ => OracleOutcome.rateLimit)
        [({ html := some "tiny" } : PageItem)] = ⟨0, [], []⟩ :=
  ⟨by decide,
   (short_pages_skipped (fun s => s) (fun _ => OracleOutcome.rateLimit)
      [{ html := some "tiny" }]).2 (by decide)⟩

theorem collectBatch_payloads :
    ∀ (t : List PollResult) (b : Nat) (acc : List PageItem),
      (collectBatch b acc t).1 ++ validPayloads (collectBatch b acc t).2 =
        acc ++ validPayloads t := by
  intro t
  induction t with
  | nil => intro b acc; simp [collectBatch, validPayloads]
  | cons r rest ih =>
    intro b acc
    cases b with
    | zero => rfl
    | succ b =>
      by_cases ha : acc.length < 2
      · cases r with
        | payload p =>
          rw [collectBatch, if_pos ha, ih b]
          by_cases h1 : pyTruthy p.html = true <;>
            by_cases h2 : pyTruthy p.url = true <;>
              simp [validPayloads, List.filterMap_cons, h1, h2]
        | isNone =>
          rw [collectBatch, if_pos ha, ih b]
          simp [validPayloads, List.filterMap_cons]
        | pollError eof =>
          rw [collectBatch, if_pos ha, ih b]
          simp [validPayloads, List.filterMap_cons]
        | malformed =>
          rw [collectBatch, if_pos ha, ih b]
          simp [validPayloads, List.filterMap_cons]
      · cases r <;> (rw [collectBatch, if_neg ha])

theorem collectBatch_rest_le :
    ∀ (t : List PollResult) (b : Nat) (acc : List PageItem),
      (collectBatch b acc t).2.length ≤ t.length := by
  intro t
  induction t with
  | nil => intro b acc; simp [collectBatch]
  | cons r rest ih =>
    intro b acc
    cases b with
    | zero => simp [collectBatch]
    | succ b =>
      by_cases ha : acc.length < 2
      · cases r <;>
          (rw [collectBatch, if_pos ha]; exact Nat.le_succ_of_le (ih b _))
      · cases r <;> (rw [collectBatch, if_neg ha])


theorem collectBatch_step_le (b : Nat) (r : PollResult) (rest : List PollResult)
    (acc : List PageItem) (ha : acc.length < 2) :
    (collectBatch (b + 1) acc (r :: rest)).2.length ≤ rest.length := by
  cases r <;> (rw [collectBatch, if_pos ha]) <;>
    exact collectBatch_rest_le rest b _

theorem batchesOfFuel_flatten :
    ∀ (f : Nat) (t : List PollResult), t.length ≤ f →
      (batchesOfFuel f t).flatten = validPayloads t := by
  intro f
  induction f with
  | zero =>
    intro t ht
    rw [List.length_eq_zero.mp (Nat.le_zero.mp ht)]
    simp [batchesOfFuel, validPayloads]
  | succ f ih =>
    intro t ht
    cases t with
    | nil => simp [batchesOfFuel, validPayloads]
    | cons r rest =>
      have hrle : (collectBatch pollBudget [] (r :: rest)).2.length ≤
          rest.length := by
        have hp : pollBudget = 3 + 1 := rfl
        rw [hp]
        exact collectBatch_step_le 3 r rest [] (by simp)
      have hmain := collectBatch_payloads (r :: rest) pollBudget []
      simp only [List.nil_append] at hmain
      have hih := ih (collectBatch pollBudget [] (r :: rest)).2
        (by simp only [List.length_cons] at ht; omega)
      simp only [batchesOfFuel]
      rw [List.flatten_append, hih]
      cases hb : (collectBatch pollBudget [] (r :: rest)).1.isEmpty with
      | true =>
        rw [List.isEmpty_iff.mp hb] at hmain
        simpa [hb] using hmain
      | false =>
        simpa [hb] using hmain

theorem workerRunFuel_eq (ex : List PageItem → List Candidate) :
    ∀ (f : Nat) (t : List PollResult), t.length ≤ f →
      workerRunFuel ex f t =
        (batchesOfFuel f t).flatMap (fun b => (ex b).map mkEnriched) := by
  intro f
  induction f with
  | zero =>
    intro t ht
    rw [List.length_eq_zero.mp (Nat.le_zero.mp ht)]
    simp [workerRunFuel, batchesOfFuel]
  | succ f ih =>
    intro t ht
    cases t with
    | nil => simp [workerRunFuel, batchesOfFuel]
    | cons r rest =>
      have hih := ih (collectBatch pollBudget [] (r :: rest)).2 (by
        have hrle : (collectBatch pollBudget [] (r :: rest)).2.length ≤
            rest.length := by
          have hp : pollBudget = 3 + 1 := rfl
          rw [hp]
          exact collectBatch_step_le 3 r rest [] (by simp)
        simp only [List.length_cons] at ht
        omega)
      simp only [workerRunFuel, batchesOfFuel]
      rw [List.flatMap_append, hih]
      cases hb : (collectBatch pollBudget [] (r :: rest)).1.isEmpty with
      | true => simp [hb]
      | false => simp [hb]

/-- C6: no error ends the consumer loop early — over any finite poll
trace interleaving idle polls, transport errors, undecodable messages and
well-formed payloads, and for any extraction behaviour (the extraction
call absorbs oracle failures and returns a list, possibly empty), the
worker consumes the whole trace: its non-empty batches exactly partition
the decodable truthy payloads of the trace, and the published output is
the concatenation of the validated extraction of every batch, so a failed
batch never loses the following ones.  The loop stops only with the
explicit stop signal (modelled as the end of the trace). -/
theorem worker_loop_resilient (ex : List PageItem → List Candidate)
    (trace : List PollResult) :
    (batchesOf trace).flatten = validPayloads trace ∧
    workerRun ex trace =
      (batchesOf trace).flatMap (fun b => (ex b).map mkEnriched) :=
  ⟨batchesOfFuel_flatten trace.length trace (Nat.le_refl _),
   workerRunFuel_eq ex trace.length trace (Nat.le_refl _)⟩

/-- C7: a dispatch run in which one URL's capture fails skips that URL
and continues: over `[u1 (fails), u2 (succeeds)]` exactly one
CaptureRecord is published (for `u2`) and the run reaches its end, and in
general the run distributes over URL-list concatenation, so no single-URL
failure aborts the remainder.  Session release on every exit path is the
embedding's `try/finally`, which has no failing operations here. -/
theorem dispatch_partial_failure (fetch : String → FetchOutcome)
    (now : Nat) (intent : String) (u1 u2 err h t : String)
    (h1 : fetch u1 = .failed err) (h2 : fetch u2 = .ok h t) :
    crawlAndStream fetch true now intent [u1, u2] =
      [mkCapturePayload u2 h t intent now] ∧
    ∀ (ki : Bool) (us vs : List String),
      crawlAndStream fetch ki now intent (us ++ vs) =
        crawlAndStream fetch ki now intent us ++
          crawlAndStream fetch ki now intent vs := by
  constructor
  · simp [crawlAndStream, h1, h2, processSuccess]
  · intro ki us vs
    simp [crawlAndStream, List.filterMap_append]

/-- C7 witness: a concrete two-URL run with the first capture failing. -/
theorem dispatch_partial_failure_witness :
    ((fun u => if u == "http://u1.example" then FetchOutcome.failed "timeout"
        else FetchOutcome.ok "<html>page</html>" "Title") "http://u1.example" =
      FetchOutcome.failed "timeout") ∧
    ((fun u => if u == "http://u1.example" then FetchOutcome.failed "timeout"
        else FetchOutcome.ok "<html>page</html>" "Title") "http://u2.example" =
      FetchOutcome.ok "<html>page</html>" "Title") ∧
    crawlAndStream
        (fun u => if u == "http://u1.example" then FetchOutcome.failed "timeout"
          else FetchOutcome.ok "<html>page</html>" "Title")
        true 5 "general" ["http://u1.example", "http://u2.example"] =
      [mkCapturePayload "http://u2.example" "<html>page</html>" "Title"
        "general" 5] :=
  ⟨by decide, by decide,
   (dispatch_partial_failure _ 5 "general" "http://u1.example"
     "http://u2.example" "timeout" "<html>page</html>" "Title"
     (by decide) (by decide)).1⟩

/-- C8: the html field of the published CaptureRecord is truncated to the
fixed 200000-character cap and never rejected: it never exceeds the cap,
a longer page is stored at exactly the cap length, and a page within the
cap is stored unchanged. -/
theorem capture_html_truncated (url html title intent : String) (now : Nat) :
    (mkCapturePayload url html title intent now).html.length ≤ 200000 ∧
    (200000 < html.length →
      (mkCapturePayload url html title intent now).html.length = 200000) ∧
    (html.length ≤ 200000 →
      (mkCapturePayload url html title intent now).html = html) := by
  obtain ⟨l⟩ := html
  have hlen : (mkCapturePayload url (String.mk l) title intent now).html.length
      = min 200000 (String.mk l).length := List.length_take 200000 l
  refine ⟨?_, fun hgt => ?_, fun hle => ?_⟩
  · rw [hlen]
    omega
  · rw [hlen]
    have : 200000 < (String.mk l).length := hgt
    omega
  · show String.mk (l.take 200000) = String.mk l
    exact congrArg String.mk (List.take_of_length_le hle)

/-- C8 witness: a page shorter than the cap is stored unchanged. -/
theorem capture_html_truncated_witness :
    (("page" : String).length ≤ 200000) ∧
    (mkCapturePayload "u" "page" "t" "general" 0).html = "page" :=
  ⟨by decide, (capture_html_truncated "u" "page" "t" "general" 0).2.2 (by decide)⟩
